import Mathlib

/-!
Verification development for `src/module/loader/loader.py` of suyunov6/slurm-cnn.

The file embeds the three pieces of the loader module:
  * `get_dataset`      — fuzzy name-to-dataset resolution (loader.py lines 70-94),
  * `get_dataset_info` — streaming per-channel mean / standard deviation / size
                         accumulator (loader.py lines 97-135),
  * `load_dataset`     — train/test pipeline wiring (loader.py lines 9-67).

Python strings are modelled as `List Char`; image tensors as `Batch` records of
real-valued pixels; PyTorch/difflib library calls (`mean`, `std`, broadcasting
`+=`, `get_close_matches`) are embedded by their documented semantics, with the
similarity score of `difflib.SequenceMatcher.ratio` kept as an abstract
parameter `ratioFn` (the resolver claims do not depend on its exact values).
Float NaN, which the code produces when dividing the zero accumulators by a
zero sample count, is modelled as `none : Option ℝ` via `fdiv`.
-/

/-! ## Python string operations used by `get_dataset` -/

/-- Python `str` modelled as a list of characters. -/
abbrev PyStr := List Char

/-- Python `str.lower()` (ASCII behaviour, which covers every registry name). -/
def pyLower (s : PyStr) : PyStr := s.map Char.toLower

/-- Python `str.strip()`: drop leading and trailing whitespace. -/
def pyStrip (s : PyStr) : PyStr :=
  ((s.dropWhile Char.isWhitespace).reverse.dropWhile Char.isWhitespace).reverse

/-- Python `str.replace(" ", "")`: remove every space character. -/
def pyRemoveSpaces (s : PyStr) : PyStr := s.filter (fun ch => ch != ' ')

/-- The normalisation `name.lower().strip().replace(" ", "")` applied by
`get_dataset` to its input (loader.py line 81). -/
def pyNormalize (s : PyStr) : PyStr := pyRemoveSpaces (pyStrip (pyLower s))

/-! ## The registry dictionary

`dataset_names = {name.lower(): name for name in dir(datasets) if not
name.startswith("_")}` (loader.py lines 82-84).  `dir(torchvision.datasets)`
is external library state, so the registry is an abstract `List PyStr`
parameter.  A Python dict comprehension lets a later entry overwrite an
earlier one with the same key, so looking up a key returns the value of the
LAST entry whose lowercased form is that key. -/

/-- Lookup in `dataset_names`: value of the last registry entry whose
lowercased form equals the key (dict-comprehension overwrite semantics). -/
def dictLookup (registry : List PyStr) (k : PyStr) : Option PyStr :=
  (registry.filter (fun e => pyLower e == k)).getLast?

/-- The key set `dataset_names.keys()`: lowercased registry entries without
duplicates. -/
def dictKeys (registry : List PyStr) : List PyStr :=
  (registry.map pyLower).dedup

/-! ## `difflib.get_close_matches(name, keys, cutoff=0)`

Stdlib call, embedded by its documented semantics: keep the possibilities
whose similarity ratio against the word is at least the cutoff, order them by
descending ratio, return the first `n` (difflib default `n = 3`).  The ratio
itself is an abstract parameter `ratioFn`; difflib guarantees its values lie
in `[0, 1]`. -/

/-- Insert into a list sorted by descending key. -/
def insertDesc (key : PyStr → ℚ) (x : PyStr) : List PyStr → List PyStr
  | [] => [x]
  | y :: ys => if key y < key x then x :: y :: ys else y :: insertDesc key x ys

/-- Sort by descending key. -/
def sortDesc (key : PyStr → ℚ) : List PyStr → List PyStr
  | [] => []
  | x :: xs => insertDesc key x (sortDesc key xs)

/-- Embedding of `difflib.get_close_matches`. -/
def getCloseMatches (ratioFn : PyStr → PyStr → ℚ) (word : PyStr)
    (possibilities : List PyStr) (n : ℕ) (cutoff : ℚ) : List PyStr :=
  ((sortDesc (fun p => ratioFn word p)
      (possibilities.filter (fun p => cutoff ≤ ratioFn word p))).take n)

/-! ## `get_dataset` (loader.py lines 70-94) -/

/-- Result of `get_dataset`: either the resolved constructor (identified by
its canonical attribute name in `torchvision.datasets`) or the `ValueError`
carrying the suggestion list shown in the message. -/
inductive Resolution where
  | ok (constructor : PyStr)
  | err (suggestions : List PyStr)
deriving DecidableEq

/-- Embedding of `get_dataset`: normalise the name, look it up, on success
return the canonical constructor, on miss raise with the canonical names of
the close matches (`cutoff=0`, top 3). -/
def get_dataset (ratioFn : PyStr → PyStr → ℚ) (registry : List PyStr)
    (name0 : PyStr) : Resolution :=
  let name := pyNormalize name0
  match dictLookup registry name with
  | some canonical => .ok canonical
  | none =>
      let closeOnes := getCloseMatches ratioFn name (dictKeys registry) 3 0
      .err (closeOnes.map (fun m => (dictLookup registry m).getD []))

/-! ## `get_dataset_info` (loader.py lines 97-135)

A batch yielded by the unshuffled temp loader is a real-valued tensor of
shape `(n, c, h, w)`.  Pixels are indexed by total functions on `ℕ` (values
outside the index ranges are never read).  `images.mean(dim=(0,2))` and
`images.std(dim=(0,2))` on the `(n, c, h*w)` view are the per-channel sample
mean and the per-channel sample standard deviation (torch default
`unbiased=True`, i.e. Bessel divisor `N - 1`) over the `n*h*w` values of each
channel.  The in-place `mean_sum += t * batch_size` on the fixed
`torch.zeros(3)` accumulator broadcasts: it accepts a length-3 tensor
elementwise, a length-1 tensor into all three slots, and raises a
`RuntimeError` for any other length — modelled by `addBroadcast` returning
`none`.  The final division of the accumulators by `num_samples` is float
division; its only degenerate reachable case, `0.0 / 0`, yields NaN, modelled
by `fdiv` returning `none`. -/

/-- One batch of images: shape `(n, c, h, w)` with real pixel values. -/
structure Batch where
  n : ℕ
  c : ℕ
  h : ℕ
  w : ℕ
  pixel : ℕ → ℕ → ℕ → ℕ → ℝ

/-- Number of values per channel in the flattened `(n, c, h*w)` view. -/
def Batch.numel (b : Batch) : ℕ := b.n * b.h * b.w

/-- Well-formed batch: at least one image of positive spatial size (what a
real `DataLoader` over an image dataset yields). -/
def Batch.WF (b : Batch) : Prop := 1 ≤ b.n ∧ 1 ≤ b.h ∧ 1 ≤ b.w

/-- Sum of all values of channel `j` across the batch and spatial dims. -/
noncomputable def channelSum (b : Batch) (j : ℕ) : ℝ :=
  ∑ i ∈ Finset.range b.n, ∑ y ∈ Finset.range b.h, ∑ x ∈ Finset.range b.w,
    b.pixel i j y x

/-- `images.mean(dim=(0,2))` at channel `j`. -/
noncomputable def batchMean (b : Batch) (j : ℕ) : ℝ :=
  channelSum b j / (b.numel : ℝ)

/-- Sum of squared deviations from the batch mean at channel `j`. -/
noncomputable def batchSqDev (b : Batch) (j : ℕ) : ℝ :=
  ∑ i ∈ Finset.range b.n, ∑ y ∈ Finset.range b.h, ∑ x ∈ Finset.range b.w,
    (b.pixel i j y x - batchMean b j) ^ 2

/-- `images.std(dim=(0,2))` at channel `j` (Bessel-corrected, torch default). -/
noncomputable def batchStd (b : Batch) (j : ℕ) : ℝ :=
  Real.sqrt (batchSqDev b j / ((b.numel : ℝ) - 1))

/-- The length-`c` tensor `images.mean(dim=(0,2))` as a list. -/
noncomputable def channelMeans (b : Batch) : List ℝ :=
  (List.range b.c).map (fun j => batchMean b j)

/-- The length-`c` tensor `images.std(dim=(0,2))` as a list. -/
noncomputable def channelStds (b : Batch) : List ℝ :=
  (List.range b.c).map (fun j => batchStd b j)

/-- In-place `acc += v` broadcasting of a length-`c` tensor into a fixed
length-3 accumulator: elementwise for matching length, scalar-style for a
single channel, `RuntimeError` (`none`) otherwise. -/
def addBroadcast (acc v : List ℝ) : Option (List ℝ) :=
  if v.length = acc.length then some (List.zipWith (fun a x => a + x) acc v)
  else
    match v with
    | [x] => some (acc.map (fun a => a + x))
    | _ => none

/-- Accumulator state of the loop in `get_dataset_info`. -/
structure StatsState where
  mean_sum : List ℝ
  std_sum : List ℝ
  num_samples : ℕ
  image_size : Option (ℕ × ℕ)

/-- One iteration of the loop body (loader.py lines 114-129). -/
noncomputable def statsStep (st : StatsState) (b : Batch) : Option StatsState :=
  let ns := st.num_samples + b.n
  let sz := match st.image_size with
    | none => some (b.h, b.w)
    | some s => some s
  match addBroadcast st.mean_sum ((channelMeans b).map (fun x => x * (b.n : ℝ))) with
  | none => none
  | some ms =>
      match addBroadcast st.std_sum ((channelStds b).map (fun x => x * (b.n : ℝ))) with
      | none => none
      | some ss => some ⟨ms, ss, ns, sz⟩

/-- The whole loop over the stream of batches. -/
noncomputable def statsFold : StatsState → List Batch → Option StatsState
  | st, [] => some st
  | st, b :: rest =>
      match statsStep st b with
      | none => none
      | some st2 => statsFold st2 rest

/-- Initial state: `torch.zeros(3)` accumulators, zero samples, no size. -/
def initStats : StatsState := ⟨[0, 0, 0], [0, 0, 0], 0, none⟩

/-- Float division of an accumulator entry by the sample count; the reachable
zero-denominator case is `0.0 / 0 = NaN`, modelled as `none`. -/
noncomputable def fdiv (x : ℝ) (n : ℕ) : Option ℝ :=
  if n = 0 then none else some (x / (n : ℝ))

/-- The triple returned by `get_dataset_info`. -/
structure DatasetInfo where
  means : List (Option ℝ)
  std_devs : List (Option ℝ)
  image_size : Option (ℕ × ℕ)

/-- Embedding of `get_dataset_info`: run the loop from the zero state, then
divide each accumulated sum by the total sample count. -/
noncomputable def get_dataset_info (stream : List Batch) : Option DatasetInfo :=
  match statsFold initStats stream with
  | none => none
  | some st =>
      some ⟨st.mean_sum.map (fun x => fdiv x st.num_samples),
            st.std_sum.map (fun x => fdiv x st.num_samples),
            st.image_size⟩

/-! ## Closed forms for the loop -/

/-- Total sample count accumulated over the stream. -/
def totalN (stream : List Batch) : ℕ := (stream.map Batch.n).sum

/-- Channel index a batch contributes to accumulator slot `j`: a length-1
tensor broadcasts its single channel 0 into every slot. -/
def chanIdx (b : Batch) (j : ℕ) : ℕ := if b.c = 1 then 0 else j

/-- Value accumulated into `mean_sum` slot `j` over the stream. -/
noncomputable def wMeanSum (stream : List Batch) (j : ℕ) : ℝ :=
  (stream.map (fun b => batchMean b (chanIdx b j) * (b.n : ℝ))).sum

/-- Value accumulated into `std_sum` slot `j` over the stream. -/
noncomputable def wStdSum (stream : List Batch) (j : ℕ) : ℝ :=
  (stream.map (fun b => batchStd b (chanIdx b j) * (b.n : ℝ))).sum

/-- Spatial size recorded from the first batch. -/
def streamSize : List Batch → Option (ℕ × ℕ)
  | [] => none
  | b :: _ => some (b.h, b.w)

/-! ## Pooled population standard deviation (for comparison, claim C1)

Comparison definition following the spec's words, not the code: the "exact
population standard deviation" of the pooled per-channel value stream — mean
over ALL values of all batches, squared deviations from that pooled mean,
divided by the pooled value count (population divisor), square root. -/

/-- Total number of per-channel values pooled over the whole stream. -/
def pooledCount (stream : List Batch) : ℕ := (stream.map Batch.numel).sum

/-- Pooled sum of all channel-`j` values over the whole stream. -/
noncomputable def pooledSum (stream : List Batch) (j : ℕ) : ℝ :=
  (stream.map (fun b => channelSum b j)).sum

/-- Pooled mean of all channel-`j` values over the whole stream. -/
noncomputable def pooledMean (stream : List Batch) (j : ℕ) : ℝ :=
  pooledSum stream j / (pooledCount stream : ℝ)

/-- Pooled sum of squared deviations from the pooled mean. -/
noncomputable def pooledSqDev (stream : List Batch) (j : ℕ) : ℝ :=
  (stream.map (fun b =>
    ∑ i ∈ Finset.range b.n, ∑ y ∈ Finset.range b.h, ∑ x ∈ Finset.range b.w,
      (b.pixel i j y x - pooledMean stream j) ^ 2)).sum

/-- Pooled population standard deviation of the whole stream at channel `j`. -/
noncomputable def pooledPopulationStd (stream : List Batch) (j : ℕ) : ℝ :=
  Real.sqrt (pooledSqDev stream j / (pooledCount stream : ℝ))

/-- Demonstration batch for C1: one 3-channel 1×2 image, all pixels 0. -/
noncomputable def demoA : Batch := ⟨1, 3, 1, 2, fun _ _ _ _ => 0⟩

/-- Demonstration batch for C1: one 3-channel 1×2 image, all pixels 1. -/
noncomputable def demoB : Batch := ⟨1, 3, 1, 2, fun _ _ _ _ => 1⟩

/-! ## `load_dataset` (loader.py lines 9-67)

The torchvision/`DataLoader` constructors are external; they are modelled as
records of the arguments the code passes them.  The batches the unshuffled
`temp_loader` yields over `temp_dataset` are determined by external dataset
contents, so they enter the model as the `stream` parameter. -/

/-- A transform in a `transforms.Compose` chain, as constructed by the code. -/
inductive Transform where
  | randomCrop (size : Option (ℕ × ℕ)) (padding : ℕ)
  | randomHorizontalFlip
  | toTensor
  | normalize (mean : List (Option ℝ)) (std_dev : List (Option ℝ))

/-- A dataset handle: constructor bound to root, split flag, download flag
and transform chain. -/
structure TorchDataset where
  module : PyStr
  root : PyStr
  train : Option Bool
  download : Bool
  transform : List Transform

/-- A `DataLoader(dataset, batch_size, shuffle, num_workers)` record. -/
structure LoaderCfg where
  dataset : TorchDataset
  batch_size : ℕ
  shuffle : Bool
  num_workers : ℕ

/-- The two ways `load_dataset` can raise: the resolver's `ValueError`, or
the broadcasting `RuntimeError` inside the statistics pass. -/
inductive LoadError where
  | unknownDataset (suggestions : List PyStr)
  | statsError

/-- Embedding of `load_dataset`: resolve the name, compute the statistics of
the raw stream, build train/test transform chains from them, instantiate the
two datasets and wrap them in loaders — train shuffled, test not, both with
the caller's batch size and worker count. -/
noncomputable def load_dataset (ratioFn : PyStr → PyStr → ℚ)
    (registry : List PyStr) (stream : List Batch) (name root : PyStr)
    (batch_size num_workers : ℕ) :
    Except LoadError (LoaderCfg × LoaderCfg) :=
  match get_dataset ratioFn registry name with
  | .err sugg => .error (.unknownDataset sugg)
  | .ok data_module =>
      match get_dataset_info stream with
      | none => .error .statsError
      | some info =>
          let train_transform : List Transform :=
            [.randomCrop info.image_size 4, .randomHorizontalFlip, .toTensor,
             .normalize info.means info.std_devs]
          let test_transform : List Transform :=
            [.toTensor, .normalize info.means info.std_devs]
          let train_dataset : TorchDataset :=
            ⟨data_module, root, some true, true, train_transform⟩
          let test_dataset : TorchDataset :=
            ⟨data_module, root, some false, true, test_transform⟩
          .ok (⟨train_dataset, batch_size, true, num_workers⟩,
               ⟨test_dataset, batch_size, false, num_workers⟩)

/-! ## Helper lemmas for the resolver -/

lemma mem_insertDesc {key : PyStr → ℚ} {x a : PyStr} {l : List PyStr}
    (h : a ∈ insertDesc key x l) : a = x ∨ a ∈ l := by
  induction l with
  | nil => simpa [insertDesc] using h
  | cons y ys ih =>
      simp only [insertDesc] at h
      by_cases hk : key y < key x
      · simpa [hk] using h
      · simp only [hk, if_false, List.mem_cons] at h
        rcases h with h | h
        · exact Or.inr (by simp [h])
        · rcases ih h with h | h
          · exact Or.inl h
          · exact Or.inr (by simp [h])

lemma mem_sortDesc {key : PyStr → ℚ} {a : PyStr} {l : List PyStr}
    (h : a ∈ sortDesc key l) : a ∈ l := by
  induction l with
  | nil => simp [sortDesc] at h
  | cons x xs ih =>
      rcases mem_insertDesc (l := sortDesc key xs) h with h | h
      · simp [h]
      · exact List.mem_cons_of_mem _ (ih h)

lemma insertDesc_ne_nil (key : PyStr → ℚ) (x : PyStr) (l : List PyStr) :
    insertDesc key x l ≠ [] := by
  cases l with
  | nil => simp [insertDesc]
  | cons y ys =>
      simp only [insertDesc]
      by_cases hk : key y < key x <;> simp [hk]

lemma sortDesc_eq_nil_iff (key : PyStr → ℚ) (l : List PyStr) :
    sortDesc key l = [] ↔ l = [] := by
  cases l with
  | nil => simp [sortDesc]
  | cons x xs => simp [sortDesc, insertDesc_ne_nil]

lemma getLast?_of_ne_nil {α : Type} {l : List α} (h : l ≠ []) :
    ∃ a, l.getLast? = some a ∧ a ∈ l := by
  have hs : l.getLast?.isSome := List.getLast?_isSome.mpr h
  rcases Option.isSome_iff_exists.mp hs with ⟨a, ha⟩
  exact ⟨a, ha, List.mem_of_mem_getLast? ha⟩

/-- A successful lookup returns a registry entry. -/
lemma dictLookup_mem {registry : List PyStr} {k v : PyStr}
    (h : dictLookup registry k = some v) : v ∈ registry := by
  unfold dictLookup at h
  have hv := List.mem_of_mem_getLast? h
  exact (List.mem_filter.mp hv).1

/-- The lookup misses exactly when no registry entry lowercases to the key. -/
lemma dictLookup_eq_none_iff (registry : List PyStr) (k : PyStr) :
    dictLookup registry k = none ↔ ¬ ∃ e ∈ registry, pyLower e = k := by
  unfold dictLookup
  rw [List.getLast?_eq_none_iff, List.filter_eq_nil_iff]
  constructor
  · rintro h ⟨e, he, hk⟩
    exact h e he (by simp [hk])
  · intro h e he hk
    exact h ⟨e, he, by simpa using hk⟩

/-- The lookup hits whenever some registry entry lowercases to the key. -/
lemma dictLookup_isSome {registry : List PyStr} {k e : PyStr}
    (he : e ∈ registry) (hk : pyLower e = k) :
    ∃ v, dictLookup registry k = some v := by
  have hne : registry.filter (fun x => pyLower x == k) ≠ [] :=
    List.ne_nil_of_mem (List.mem_filter.mpr ⟨he, by simp [hk]⟩)
  rcases getLast?_of_ne_nil hne with ⟨v, hv, _⟩
  exact ⟨v, hv⟩

/-- On a miss, each suggestion in the error is a registry entry. -/
lemma suggestions_subset {ratioFn : PyStr → PyStr → ℚ} {registry : List PyStr}
    {name : PyStr} {sugg : List PyStr}
    (h : get_dataset ratioFn registry name = .err sugg) :
    ∀ s ∈ sugg, s ∈ registry := by
  intro s hs
  cases hlk : dictLookup registry (pyNormalize name) with
  | some v => simp [get_dataset, hlk] at h
  | none =>
      simp only [get_dataset, hlk] at h
      injection h with h
      subst h
      rcases List.mem_map.mp hs with ⟨m, hm, hms⟩
      have hm1 : m ∈ dictKeys registry := by
        have := List.mem_of_mem_take (l := sortDesc (fun p => ratioFn (pyNormalize name) p)
          ((dictKeys registry).filter (fun p => (0 : ℚ) ≤ ratioFn (pyNormalize name) p))) hm
        exact List.mem_of_mem_filter (mem_sortDesc this)
      rcases List.mem_map.mp (List.mem_dedup.mp hm1) with ⟨e, he, hek⟩
      rcases dictLookup_isSome he hek with ⟨v, hv⟩
      rw [hv] at hms
      exact hms ▸ dictLookup_mem hv

lemma dictKeys_eq_nil_iff (registry : List PyStr) :
    dictKeys registry = [] ↔ registry = [] := by
  unfold dictKeys
  rw [List.dedup_eq_nil, List.map_eq_nil_iff]

/-- C4: a name whose normalised form coincides with the normalised form of a
registry entry resolves successfully, and to the very same constructor as the
canonical name of that entry does; resolution thus ignores casing and spacing
variants.  The hypothesis `hid` records that registry entries (Python
identifiers from `dir(torchvision.datasets)`) contain no spaces or surrounding
whitespace, so normalising one only lowercases it. -/
theorem claim_C4 (ratioFn : PyStr → PyStr → ℚ) (registry : List PyStr)
    (name entry : PyStr) (hentry : entry ∈ registry)
    (hid : pyNormalize entry = pyLower entry)
    (hmatch : pyNormalize name = pyNormalize entry) :
    ∃ v, get_dataset ratioFn registry name = .ok v ∧
         get_dataset ratioFn registry entry = .ok v := by
  rcases dictLookup_isSome hentry rfl with ⟨v, hv⟩
  refine ⟨v, ?_, ?_⟩ <;>
    simp [get_dataset, hmatch, hid, hv]

/-- Witness for C4 at a concrete registry: both the variant " mNi sT" (after
normalisation) and the canonical "MNIST" resolve, to the same constructor. -/
theorem claim_C4_witness :
    ∃ v, get_dataset (fun _ _ => 0) [['M','N','I','S','T']]
           ['m','N','i',' ','s','T'] = .ok v ∧
         get_dataset (fun _ _ => 0) [['M','N','I','S','T']]
           ['M','N','I','S','T'] = .ok v :=
  claim_C4 (fun _ _ => 0) [['M','N','I','S','T']] ['m','N','i',' ','s','T']
    ['M','N','I','S','T'] (by decide) (by decide) (by decide)

/-- C5: `get_dataset` raises exactly when no registry entry's lowercased form
equals the normalised input name, and every suggestion carried by the raised
error is a canonical registry entry. -/
theorem claim_C5 (ratioFn : PyStr → PyStr → ℚ) (registry : List PyStr)
    (name : PyStr) :
    ((∃ sugg, get_dataset ratioFn registry name = .err sugg) ↔
       ¬ ∃ e ∈ registry, pyLower e = pyNormalize name) ∧
    (∀ sugg, get_dataset ratioFn registry name = .err sugg →
       ∀ s ∈ sugg, s ∈ registry) := by
  constructor
  · cases hlk : dictLookup registry (pyNormalize name) with
    | some v =>
        constructor
        · rintro ⟨sugg, hsugg⟩
          simp [get_dataset, hlk] at hsugg
        · intro hno
          exact absurd ((dictLookup_eq_none_iff registry (pyNormalize name)).mpr hno)
            (by simp [hlk])
    | none =>
        constructor
        · intro _
          exact (dictLookup_eq_none_iff registry (pyNormalize name)).mp hlk
        · intro _
          refine ⟨(getCloseMatches ratioFn (pyNormalize name)
            (dictKeys registry) 3 0).map
              (fun m => (dictLookup registry m).getD []), ?_⟩
          simp [get_dataset, hlk]
  · intro sugg hsugg
    exact suggestions_subset hsugg

/-- Witness for C5 at a concrete registry and a concrete missing name. -/
theorem claim_C5_witness :
    ((∃ sugg, get_dataset (fun _ _ => 0) [['a','b']] ['z','q'] = .err sugg) ↔
       ¬ ∃ e ∈ [['a','b']], pyLower e = pyNormalize ['z','q']) ∧
    (∀ sugg, get_dataset (fun _ _ => 0) [['a','b']] ['z','q'] = .err sugg →
       ∀ s ∈ sugg, s ∈ [['a','b']]) :=
  claim_C5 (fun _ _ => 0) [['a','b']] ['z','q']

/-- C6: on a miss the suggestions are the top 3 of ALL normalised registry
keys ordered by similarity — the `cutoff=0` filter discards nothing, i.e.
there is no similarity-score floor — and the suggestion list is empty exactly
when the registry itself is empty (in particular it can be empty: vacuously,
no entry of an empty registry resembles the input). -/
theorem claim_C6 (ratioFn : PyStr → PyStr → ℚ) (registry : List PyStr)
    (name : PyStr) (hr : ∀ a b, 0 ≤ ratioFn a b)
    (hmiss : ∀ e ∈ registry, pyLower e ≠ pyNormalize name) :
    get_dataset ratioFn registry name =
      .err (((sortDesc (fun p => ratioFn (pyNormalize name) p)
                (dictKeys registry)).take 3).map
              (fun m => (dictLookup registry m).getD [])) ∧
    (∀ sugg, get_dataset ratioFn registry name = .err sugg →
       (sugg = [] ↔ registry = [])) := by
  have hlk : dictLookup registry (pyNormalize name) = none :=
    (dictLookup_eq_none_iff registry (pyNormalize name)).mpr
      (by rintro ⟨e, he, hk⟩; exact hmiss e he hk)
  have hfilter : (dictKeys registry).filter
      (fun p => (0 : ℚ) ≤ ratioFn (pyNormalize name) p) = dictKeys registry :=
    List.filter_eq_self.mpr (by intro a _; simpa using hr (pyNormalize name) a)
  have hmain : get_dataset ratioFn registry name =
      .err (((sortDesc (fun p => ratioFn (pyNormalize name) p)
                (dictKeys registry)).take 3).map
              (fun m => (dictLookup registry m).getD [])) := by
    simp [get_dataset, hlk, getCloseMatches, hfilter]
  refine ⟨hmain, ?_⟩
  intro sugg hsugg
  rw [hmain] at hsugg
  cases hsugg
  rw [List.map_eq_nil_iff, List.take_eq_nil_iff, sortDesc_eq_nil_iff,
    dictKeys_eq_nil_iff]
  simp

/-- Witness for C6 at a concrete ratio function, registry and missing name. -/
theorem claim_C6_witness :
    get_dataset (fun _ _ => 0) [['a','b']] ['z','q'] =
      .err (((sortDesc (fun p => (fun _ _ => (0 : ℚ)) (pyNormalize ['z','q']) p)
                (dictKeys [['a','b']])).take 3).map
              (fun m => (dictLookup [['a','b']] m).getD [])) ∧
    (∀ sugg, get_dataset (fun _ _ => 0) [['a','b']] ['z','q'] = .err sugg →
       (sugg = [] ↔ [['a','b']] = ([] : List PyStr))) :=
  claim_C6 (fun _ _ => 0) [['a','b']] ['z','q'] (fun _ _ => le_refl 0) (by decide)

/-! ## Closed-form lemmas for the statistics loop -/

lemma addBroadcast_three (a0 a1 a2 x0 x1 x2 : ℝ) :
    addBroadcast [a0, a1, a2] [x0, x1, x2] = some [a0 + x0, a1 + x1, a2 + x2] := by
  simp [addBroadcast]

lemma addBroadcast_one (a0 a1 a2 x : ℝ) :
    addBroadcast [a0, a1, a2] [x] = some [a0 + x, a1 + x, a2 + x] := by
  simp [addBroadcast]

/-- Closed form of the loop on a channel-compatible stream, for an arbitrary
start state with length-3 accumulators. -/
lemma statsFold_eq (stream : List Batch)
    (hc : ∀ b ∈ stream, b.c = 1 ∨ b.c = 3)
    (a0 a1 a2 s0 s1 s2 : ℝ) (m : ℕ) (sz : Option (ℕ × ℕ)) :
    statsFold ⟨[a0, a1, a2], [s0, s1, s2], m, sz⟩ stream =
      some ⟨[a0 + wMeanSum stream 0, a1 + wMeanSum stream 1, a2 + wMeanSum stream 2],
            [s0 + wStdSum stream 0, s1 + wStdSum stream 1, s2 + wStdSum stream 2],
            m + totalN stream,
            (match sz with | some s => some s | none => streamSize stream)⟩ := by
  induction stream generalizing a0 a1 a2 s0 s1 s2 m sz with
  | nil =>
      simp only [statsFold, wMeanSum, wStdSum, totalN, List.map_nil, List.sum_nil,
        add_zero, Nat.add_zero]
      cases sz <;> simp [streamSize]
  | cons b rest ih =>
      have hb := hc b (List.mem_cons_self b rest)
      have hrest : ∀ x ∈ rest, x.c = 1 ∨ x.c = 3 :=
        fun x hx => hc x (List.mem_cons_of_mem b hx)
      have hm : wMeanSum (b :: rest) = fun j =>
          batchMean b (chanIdx b j) * (b.n : ℝ) + wMeanSum rest j := by
        funext j; simp [wMeanSum]
      have hs : wStdSum (b :: rest) = fun j =>
          batchStd b (chanIdx b j) * (b.n : ℝ) + wStdSum rest j := by
        funext j; simp [wStdSum]
      rcases hb with h1 | h3
      · have hrange1 : List.range 1 = [0] := by decide
        simp only [statsFold, statsStep, channelMeans, channelStds, h1,
          hrange1, List.map_cons, List.map_nil, addBroadcast_one]
        rw [ih hrest]
        simp only [hm, hs, chanIdx, h1, if_pos rfl]
        cases sz <;>
          simp [totalN, streamSize, add_assoc, Nat.add_assoc]
      · have hrange : List.range 3 = [0, 1, 2] := by decide
        simp only [statsFold, statsStep, channelMeans, channelStds, h3, hrange,
          List.map_cons, List.map_nil, addBroadcast_three]
        rw [ih hrest]
        simp only [hm, hs]
        have hni : ∀ j : ℕ, chanIdx b j = j := fun j => by simp [chanIdx, h3]
        cases sz <;>
          simp [totalN, streamSize, hni, add_assoc, Nat.add_assoc]

/-- Closed form of `get_dataset_info` on a channel-compatible stream. -/
lemma get_dataset_info_eq (stream : List Batch)
    (hc : ∀ b ∈ stream, b.c = 1 ∨ b.c = 3) :
    get_dataset_info stream =
      some ⟨[fdiv (wMeanSum stream 0) (totalN stream),
             fdiv (wMeanSum stream 1) (totalN stream),
             fdiv (wMeanSum stream 2) (totalN stream)],
            [fdiv (wStdSum stream 0) (totalN stream),
             fdiv (wStdSum stream 1) (totalN stream),
             fdiv (wStdSum stream 2) (totalN stream)],
            streamSize stream⟩ := by
  unfold get_dataset_info initStats
  rw [statsFold_eq stream hc]
  simp


/-! ## Constant-batch facts -/

lemma totalN_ne_zero {stream : List Batch} (hne : stream ≠ [])
    (h1 : ∀ b ∈ stream, 1 ≤ b.n) : totalN stream ≠ 0 := by
  cases stream with
  | nil => exact absurd rfl hne
  | cons b rest =>
      have hb := h1 b (List.mem_cons_self b rest)
      simp only [totalN, List.map_cons, List.sum_cons]
      omega

lemma channelSum_const {b : Batch} {v : ℝ} (j : ℕ)
    (hconst : ∀ i jj y x, i < b.n → jj < b.c → y < b.h → x < b.w →
      b.pixel i jj y x = v) (hj : j < b.c) :
    channelSum b j = (b.numel : ℝ) * v := by
  unfold channelSum
  calc (∑ i ∈ Finset.range b.n, ∑ y ∈ Finset.range b.h,
          ∑ x ∈ Finset.range b.w, b.pixel i j y x)
      = ∑ _i ∈ Finset.range b.n, ∑ _y ∈ Finset.range b.h,
          ∑ _x ∈ Finset.range b.w, v := by
        refine Finset.sum_congr rfl fun i hi => ?_
        refine Finset.sum_congr rfl fun y hy => ?_
        refine Finset.sum_congr rfl fun x hx => ?_
        exact hconst i j y x (Finset.mem_range.mp hi) hj
          (Finset.mem_range.mp hy) (Finset.mem_range.mp hx)
    _ = (b.numel : ℝ) * v := by
        simp [Finset.sum_const, Finset.card_range, Batch.numel]
        ring

lemma batchMean_const {b : Batch} {v : ℝ} (j : ℕ)
    (hconst : ∀ i jj y x, i < b.n → jj < b.c → y < b.h → x < b.w →
      b.pixel i jj y x = v) (hj : j < b.c) (hnum : b.numel ≠ 0) :
    batchMean b j = v := by
  have hcast : (b.numel : ℝ) ≠ 0 := Nat.cast_ne_zero.mpr hnum
  rw [batchMean, channelSum_const j hconst hj, mul_comm, mul_div_assoc,
    div_self hcast, mul_one]

lemma batchStd_const {b : Batch} {v : ℝ} (j : ℕ)
    (hconst : ∀ i jj y x, i < b.n → jj < b.c → y < b.h → x < b.w →
      b.pixel i jj y x = v) (hj : j < b.c) (hnum : b.numel ≠ 0) :
    batchStd b j = 0 := by
  have hdev : batchSqDev b j = 0 := by
    unfold batchSqDev
    refine Finset.sum_eq_zero fun i hi => ?_
    refine Finset.sum_eq_zero fun y hy => ?_
    refine Finset.sum_eq_zero fun x hx => ?_
    rw [hconst i j y x (Finset.mem_range.mp hi) hj
        (Finset.mem_range.mp hy) (Finset.mem_range.mp hx),
      batchMean_const j hconst hj hnum, sub_self]
    ring
  rw [batchStd, hdev, zero_div, Real.sqrt_zero]

lemma Batch.WF.numel_ne_zero {b : Batch} (h : b.WF) : b.numel ≠ 0 := by
  rcases h with ⟨h1, h2, h3⟩
  simp only [Batch.numel]
  positivity

/-- The broadcast index always addresses a real channel of a compatible batch. -/
lemma chanIdx_lt {b : Batch} {j : ℕ} (hb : b.c = 1 ∨ b.c = 3) (hj : j < 3) :
    chanIdx b j < b.c := by
  rcases hb with h | h <;> simp [chanIdx, h] <;> omega

/-! ## Claim C9 -/

/-- C9: on an empty stream the loop never runs, no error is raised, the zero
accumulators are divided by the zero sample count giving NaN (`none`) in all
three mean and standard-deviation slots, and the size is `None`. -/
theorem claim_C9 :
    get_dataset_info [] =
      some ⟨[none, none, none], [none, none, none], none⟩ := rfl

/-! ## Claim C7 -/

/-- C7: the recorded size is the spatial size of the first batch, whatever
the spatial sizes of the later batches are; no error is raised for a size
mismatch (the hypotheses constrain only channel counts and well-formedness,
never the later sizes). -/
theorem claim_C7 (b : Batch) (rest : List Batch)
    (hc : ∀ x ∈ b :: rest, (x.c = 1 ∨ x.c = 3) ∧ x.WF) :
    ∃ info, get_dataset_info (b :: rest) = some info ∧
      info.image_size = some (b.h, b.w) :=
  ⟨_, get_dataset_info_eq (b :: rest) (fun x hx => (hc x hx).1), rfl⟩

/-- Witness for C7: a 2×2 first batch followed by a 5×7 batch still yields
size (2, 2) and no error. -/
theorem claim_C7_witness :
    ∃ info, get_dataset_info
        [⟨1, 3, 2, 2, fun _ _ _ _ => 0⟩, ⟨1, 3, 5, 7, fun _ _ _ _ => 0⟩] =
        some info ∧
      info.image_size = some (2, 2) :=
  claim_C7 ⟨1, 3, 2, 2, fun _ _ _ _ => 0⟩ [⟨1, 3, 5, 7, fun _ _ _ _ => 0⟩]
    (by
      intro x hx
      simp only [List.mem_cons, List.mem_singleton, List.not_mem_nil,
        or_false] at hx
      rcases hx with h | h <;> subst h <;>
        exact ⟨Or.inr rfl, Nat.le_refl 1, by norm_num, by norm_num⟩)

/-! ## Claim C3 -/

/-- C3: a non-empty stream of constant-value images produces per-channel
means equal to that constant and per-channel standard deviations equal to
zero.  Each batch is required to be well-formed, channel-compatible and to
hold at least two values per channel (torch's Bessel-corrected `std` is only
a number, rather than NaN, for at least two values). -/
theorem claim_C3 (stream : List Batch) (v : ℝ) (hne : stream ≠ [])
    (hs : ∀ b ∈ stream, (b.c = 1 ∨ b.c = 3) ∧ b.WF ∧ 2 ≤ b.numel ∧
      ∀ i j y x, i < b.n → j < b.c → y < b.h → x < b.w → b.pixel i j y x = v) :
    ∃ info, get_dataset_info stream = some info ∧
      info.means = [some v, some v, some v] ∧
      info.std_devs = [some 0, some 0, some 0] := by
  have hc : ∀ b ∈ stream, b.c = 1 ∨ b.c = 3 := fun b hb => (hs b hb).1
  have hN : totalN stream ≠ 0 :=
    totalN_ne_zero hne (fun b hb => ((hs b hb).2.1).1)
  have hNC : ((totalN stream : ℕ) : ℝ) ≠ 0 := Nat.cast_ne_zero.mpr hN
  have hmean : ∀ j < 3, wMeanSum stream j = v * (totalN stream : ℝ) := by
    intro j hj
    unfold wMeanSum
    rw [List.map_congr_left (f := fun b => batchMean b (chanIdx b j) * (b.n : ℝ))
      (g := fun b => v * (b.n : ℝ)) ?_]
    · rw [List.sum_map_mul_left]
      congr 1
      rw [totalN, Nat.cast_list_sum, List.map_map]
      rfl
    · intro b hb
      rcases hs b hb with ⟨hbc, hwf, _, hconst⟩
      show batchMean b (chanIdx b j) * (b.n : ℝ) = v * (b.n : ℝ)
      rw [batchMean_const (chanIdx b j) hconst (chanIdx_lt hbc hj)
        hwf.numel_ne_zero]
  have hstd : ∀ j < 3, wStdSum stream j = 0 := by
    intro j hj
    unfold wStdSum
    rw [List.map_congr_left (f := fun b => batchStd b (chanIdx b j) * (b.n : ℝ))
      (g := fun _ => 0) ?_]
    · simp
    · intro b hb
      rcases hs b hb with ⟨hbc, hwf, _, hconst⟩
      show batchStd b (chanIdx b j) * (b.n : ℝ) = 0
      rw [batchStd_const (chanIdx b j) hconst (chanIdx_lt hbc hj)
        hwf.numel_ne_zero, zero_mul]
  refine ⟨_, get_dataset_info_eq stream hc, ?_, ?_⟩
  · show [fdiv (wMeanSum stream 0) (totalN stream),
          fdiv (wMeanSum stream 1) (totalN stream),
          fdiv (wMeanSum stream 2) (totalN stream)] = _
    rw [hmean 0 (by norm_num), hmean 1 (by norm_num), hmean 2 (by norm_num)]
    simp [fdiv, hN, mul_div_assoc, div_self hNC]
  · show [fdiv (wStdSum stream 0) (totalN stream),
          fdiv (wStdSum stream 1) (totalN stream),
          fdiv (wStdSum stream 2) (totalN stream)] = _
    rw [hstd 0 (by norm_num), hstd 1 (by norm_num), hstd 2 (by norm_num)]
    simp [fdiv, hN]

/-- Witness for C3: two 3-channel 1×1 images all equal to 5 give means
(5, 5, 5) and standard deviations (0, 0, 0). -/
theorem claim_C3_witness :
    ∃ info, get_dataset_info [⟨2, 3, 1, 1, fun _ _ _ _ => 5⟩] = some info ∧
      info.means = [some 5, some 5, some 5] ∧
      info.std_devs = [some 0, some 0, some 0] :=
  claim_C3 [⟨2, 3, 1, 1, fun _ _ _ _ => 5⟩] 5 (by simp)
    (by
      intro b hb
      simp only [List.mem_singleton] at hb
      subst hb
      exact ⟨Or.inr rfl, ⟨by norm_num, Nat.le_refl 1, Nat.le_refl 1⟩,
        by norm_num [Batch.numel], fun _ _ _ _ _ _ _ _ => rfl⟩)

/-! ## Claim C2 -/

/-- C2: for a two-batch stream of sizes 3 and 5 the returned per-channel mean
is (3·m1 + 5·m2)/8, where m1, m2 are the per-batch per-channel means; in
general the returned mean is the batch-size-weighted sum of per-batch means
divided by the total sample count. -/
theorem claim_C2 :
    (∀ b1 b2 : Batch, b1.n = 3 → b2.n = 5 → b1.c = 3 → b2.c = 3 →
       b1.WF → b2.WF →
       ∃ info, get_dataset_info [b1, b2] = some info ∧
         info.means = (List.range 3).map
           (fun j => some ((3 * batchMean b1 j + 5 * batchMean b2 j) / 8))) ∧
    (∀ stream : List Batch, (∀ b ∈ stream, b.c = 3 ∧ b.WF) →
       ∃ info, get_dataset_info stream = some info ∧
         info.means = (List.range 3).map (fun j =>
           fdiv ((stream.map (fun b => batchMean b j * (b.n : ℝ))).sum)
             (totalN stream))) := by
  constructor
  · intro b1 b2 hn1 hn2 hc1 hc2 _ _
    have hc : ∀ x ∈ [b1, b2], x.c = 1 ∨ x.c = 3 := by
      intro x hx
      simp only [List.mem_cons, List.mem_singleton, List.not_mem_nil,
        or_false] at hx
      rcases hx with h | h <;> subst h <;> simp [hc1, hc2]
    refine ⟨_, get_dataset_info_eq [b1, b2] hc, ?_⟩
    have htot : totalN [b1, b2] = 8 := by simp [totalN, hn1, hn2]
    have hrange : List.range 3 = [0, 1, 2] := by decide
    have hcomp : ∀ j : ℕ, fdiv (wMeanSum [b1, b2] j) (totalN [b1, b2]) =
        some ((3 * batchMean b1 j + 5 * batchMean b2 j) / 8) := by
      intro j
      rw [htot]
      simp only [wMeanSum, List.map_cons, List.map_nil, List.sum_cons,
        List.sum_nil, chanIdx, hc1, hc2, hn1, hn2, fdiv]
      norm_num
      ring
    show [fdiv (wMeanSum [b1, b2] 0) (totalN [b1, b2]),
          fdiv (wMeanSum [b1, b2] 1) (totalN [b1, b2]),
          fdiv (wMeanSum [b1, b2] 2) (totalN [b1, b2])] = _
    rw [hrange, List.map_cons, List.map_cons, List.map_cons, List.map_nil,
      hcomp 0, hcomp 1, hcomp 2]
  · intro stream hs
    have hc : ∀ b ∈ stream, b.c = 1 ∨ b.c = 3 :=
      fun b hb => Or.inr (hs b hb).1
    refine ⟨_, get_dataset_info_eq stream hc, ?_⟩
    have hw : ∀ j : ℕ, wMeanSum stream j =
        (stream.map (fun b => batchMean b j * (b.n : ℝ))).sum := by
      intro j
      unfold wMeanSum
      congr 1
      refine List.map_congr_left fun b hb => ?_
      have h3 : b.c = 3 := (hs b hb).1
      show batchMean b (chanIdx b j) * (b.n : ℝ) = batchMean b j * (b.n : ℝ)
      simp [chanIdx, h3]
    have hrange : List.range 3 = [0, 1, 2] := by decide
    show [fdiv (wMeanSum stream 0) (totalN stream),
          fdiv (wMeanSum stream 1) (totalN stream),
          fdiv (wMeanSum stream 2) (totalN stream)] = _
    rw [hrange, List.map_cons, List.map_cons, List.map_cons, List.map_nil,
      hw 0, hw 1, hw 2]

/-- Witness for C2 at concrete constant batches of sizes 3 and 5. -/
theorem claim_C2_witness :
    ∃ info, get_dataset_info
        [⟨3, 3, 1, 1, fun _ _ _ _ => 1⟩, ⟨5, 3, 1, 1, fun _ _ _ _ => 2⟩] =
        some info ∧
      info.means = (List.range 3).map
        (fun j => some ((3 * batchMean ⟨3, 3, 1, 1, fun _ _ _ _ => 1⟩ j +
                         5 * batchMean ⟨5, 3, 1, 1, fun _ _ _ _ => 2⟩ j) / 8)) :=
  claim_C2.1 ⟨3, 3, 1, 1, fun _ _ _ _ => 1⟩ ⟨5, 3, 1, 1, fun _ _ _ _ => 2⟩
    rfl rfl rfl rfl ⟨by norm_num, Nat.le_refl 1, Nat.le_refl 1⟩
    ⟨by norm_num, Nat.le_refl 1, Nat.le_refl 1⟩

/-! ## Claim C1 -/

/-- C1: the returned per-channel standard deviation is the batch-size-weighted
sum of per-batch standard deviations (each over the batch's flattened batch
and spatial dimensions) divided by the total sample count; it is NOT the
pooled population standard deviation of the whole stream: on the concrete
two-batch stream `[demoA, demoB]` the code returns 0 in every slot while the
pooled population standard deviation is 1/2 ≠ 0. -/
theorem claim_C1 :
    (∀ stream : List Batch,
       (∀ b ∈ stream, (b.c = 1 ∨ b.c = 3) ∧ b.WF ∧ 2 ≤ b.numel) →
       ∃ info, get_dataset_info stream = some info ∧
         info.std_devs = (List.range 3).map (fun j =>
           fdiv ((stream.map (fun b => batchStd b (chanIdx b j) * (b.n : ℝ))).sum)
             (totalN stream))) ∧
    (∃ info, get_dataset_info [demoA, demoB] = some info ∧
       info.std_devs = [some 0, some 0, some 0] ∧
       pooledPopulationStd [demoA, demoB] 0 = 1 / 2 ∧
       pooledPopulationStd [demoA, demoB] 0 ≠ 0) := by
  have hconstA : ∀ i jj y x, i < demoA.n → jj < demoA.c → y < demoA.h →
      x < demoA.w → demoA.pixel i jj y x = 0 := fun _ _ _ _ _ _ _ _ => rfl
  have hconstB : ∀ i jj y x, i < demoB.n → jj < demoB.c → y < demoB.h →
      x < demoB.w → demoB.pixel i jj y x = 1 := fun _ _ _ _ _ _ _ _ => rfl
  have hnumA : demoA.numel ≠ 0 := by norm_num [demoA, Batch.numel]
  have hnumB : demoB.numel ≠ 0 := by norm_num [demoB, Batch.numel]
  constructor
  · intro stream hs
    have hc : ∀ b ∈ stream, b.c = 1 ∨ b.c = 3 := fun b hb => (hs b hb).1
    refine ⟨_, get_dataset_info_eq stream hc, ?_⟩
    have hrange : List.range 3 = [0, 1, 2] := by decide
    show [fdiv (wStdSum stream 0) (totalN stream),
          fdiv (wStdSum stream 1) (totalN stream),
          fdiv (wStdSum stream 2) (totalN stream)] = _
    rw [hrange, List.map_cons, List.map_cons, List.map_cons, List.map_nil]
    rfl
  · have hc : ∀ x ∈ [demoA, demoB], x.c = 1 ∨ x.c = 3 := by
      intro x hx
      simp only [List.mem_cons, List.mem_singleton, List.not_mem_nil,
        or_false] at hx
      rcases hx with h | h <;> subst h <;> exact Or.inr rfl
    refine ⟨_, get_dataset_info_eq [demoA, demoB] hc, ?_, ?_, ?_⟩
    · have hstd : ∀ j : ℕ, j < 3 → fdiv (wStdSum [demoA, demoB] j)
          (totalN [demoA, demoB]) = some 0 := by
        intro j hj
        have hA : batchStd demoA (chanIdx demoA j) = 0 :=
          batchStd_const _ hconstA (chanIdx_lt (Or.inr rfl) hj) hnumA
        have hB : batchStd demoB (chanIdx demoB j) = 0 :=
          batchStd_const _ hconstB (chanIdx_lt (Or.inr rfl) hj) hnumB
        have hw : wStdSum [demoA, demoB] j = 0 := by
          simp [wStdSum, hA, hB]
        have ht : totalN [demoA, demoB] = 2 := by
          norm_num [totalN, demoA, demoB]
        rw [hw, ht]
        simp [fdiv]
      show [fdiv (wStdSum [demoA, demoB] 0) (totalN [demoA, demoB]),
            fdiv (wStdSum [demoA, demoB] 1) (totalN [demoA, demoB]),
            fdiv (wStdSum [demoA, demoB] 2) (totalN [demoA, demoB])] = _
      rw [hstd 0 (by norm_num), hstd 1 (by norm_num), hstd 2 (by norm_num)]
    · have hcount : pooledCount [demoA, demoB] = 4 := by
        norm_num [pooledCount, demoA, demoB, Batch.numel]
      have hmean : pooledMean [demoA, demoB] 0 = 1 / 2 := by
        rw [pooledMean, hcount]
        have hsum : pooledSum [demoA, demoB] 0 = 2 := by
          simp [pooledSum, channelSum, demoA, demoB, Finset.sum_range_succ]
        rw [hsum]
        norm_num
      have hdev : pooledSqDev [demoA, demoB] 0 = 1 := by
        simp only [pooledSqDev, List.map_cons, List.map_nil, List.sum_cons,
          List.sum_nil, hmean]
        norm_num [demoA, demoB, Finset.sum_range_succ]
      rw [pooledPopulationStd, hdev, hcount]
      rw [show (1 : ℝ) / (4 : ℕ) = (1 / 2) ^ 2 by norm_num]
      exact Real.sqrt_sq (by norm_num)
    · have hcount : pooledCount [demoA, demoB] = 4 := by
        norm_num [pooledCount, demoA, demoB, Batch.numel]
      have hmean : pooledMean [demoA, demoB] 0 = 1 / 2 := by
        rw [pooledMean, hcount]
        have hsum : pooledSum [demoA, demoB] 0 = 2 := by
          simp [pooledSum, channelSum, demoA, demoB, Finset.sum_range_succ]
        rw [hsum]
        norm_num
      have hdev : pooledSqDev [demoA, demoB] 0 = 1 := by
        simp only [pooledSqDev, List.map_cons, List.map_nil, List.sum_cons,
          List.sum_nil, hmean]
        norm_num [demoA, demoB, Finset.sum_range_succ]
      rw [pooledPopulationStd, hdev, hcount]
      refine Real.sqrt_ne_zero'.mpr ?_
      norm_num

/-- Witness for C1's universal part at a concrete one-batch stream. -/
theorem claim_C1_witness :
    ∃ info, get_dataset_info [⟨1, 3, 1, 2, fun _ _ _ _ => 0⟩] = some info ∧
      info.std_devs = (List.range 3).map (fun j =>
        fdiv (([⟨1, 3, 1, 2, fun _ _ _ _ => 0⟩] : List Batch).map
            (fun b => batchStd b (chanIdx b j) * (b.n : ℝ)) |>.sum)
          (totalN [⟨1, 3, 1, 2, fun _ _ _ _ => 0⟩])) :=
  claim_C1.1 [⟨1, 3, 1, 2, fun _ _ _ _ => 0⟩]
    (by
      intro b hb
      simp only [List.mem_singleton] at hb
      subst hb
      exact ⟨Or.inr rfl, ⟨Nat.le_refl 1, Nat.le_refl 1, by norm_num⟩,
        by norm_num [Batch.numel]⟩)

/-! ## Claim C10 -/

lemma addBroadcast_none {acc v : List ℝ} (h3 : v.length ≠ acc.length)
    (h1 : v.length ≠ 1) : addBroadcast acc v = none := by
  unfold addBroadcast
  rw [if_neg h3]
  cases v with
  | nil => rfl
  | cons x xs =>
      cases xs with
      | nil => simp at h1
      | cons y zs => rfl

/-- Counterexample to C10 as stated: on a well-formed batch with TWO
channels, `get_dataset_info` does not return a 3-element tuple — the
broadcasting `+=` raises a `RuntimeError` (`none`). -/
theorem claim_C10_counterexample :
    get_dataset_info [⟨1, 2, 1, 1, fun _ _ _ _ => 0⟩] = none ∧
    Batch.WF ⟨1, 2, 1, 1, fun _ _ _ _ => 0⟩ :=
  ⟨rfl, Nat.le_refl 1, Nat.le_refl 1, Nat.le_refl 1⟩

/-- C10 amended: for every stream whose batches each carry 1 or 3 channels
the returned mean and standard-deviation tuples have exactly 3 elements; for
single-channel streams the one per-channel statistic is broadcast into all
three positions; for any other channel count the accumulation raises instead
of returning. -/
theorem claim_C10 :
    (∀ stream : List Batch, (∀ b ∈ stream, b.c = 1 ∨ b.c = 3) →
       ∃ info, get_dataset_info stream = some info ∧
         info.means.length = 3 ∧ info.std_devs.length = 3) ∧
    (∀ stream : List Batch, (∀ b ∈ stream, b.c = 1) →
       ∃ info, get_dataset_info stream = some info ∧
         info.means = List.replicate 3 (fdiv (wMeanSum stream 0) (totalN stream)) ∧
         info.std_devs = List.replicate 3 (fdiv (wStdSum stream 0) (totalN stream))) ∧
    (∀ (b : Batch) (rest : List Batch), b.c ≠ 1 → b.c ≠ 3 →
       get_dataset_info (b :: rest) = none) := by
  refine ⟨?_, ?_, ?_⟩
  · intro stream hc
    exact ⟨_, get_dataset_info_eq stream hc, rfl, rfl⟩
  · intro stream h1
    have hc : ∀ b ∈ stream, b.c = 1 ∨ b.c = 3 := fun b hb => Or.inl (h1 b hb)
    have hidx : ∀ j : ℕ, wMeanSum stream j = wMeanSum stream 0 ∧
        wStdSum stream j = wStdSum stream 0 := by
      intro j
      constructor
      · unfold wMeanSum
        congr 1
        refine List.map_congr_left fun b hb => ?_
        show batchMean b (chanIdx b j) * (b.n : ℝ) = _
        simp [chanIdx, h1 b hb]
      · unfold wStdSum
        congr 1
        refine List.map_congr_left fun b hb => ?_
        show batchStd b (chanIdx b j) * (b.n : ℝ) = _
        simp [chanIdx, h1 b hb]
    refine ⟨_, get_dataset_info_eq stream hc, ?_, ?_⟩
    · show [fdiv (wMeanSum stream 0) (totalN stream),
            fdiv (wMeanSum stream 1) (totalN stream),
            fdiv (wMeanSum stream 2) (totalN stream)] = _
      rw [(hidx 1).1, (hidx 2).1]
      rfl
    · show [fdiv (wStdSum stream 0) (totalN stream),
            fdiv (wStdSum stream 1) (totalN stream),
            fdiv (wStdSum stream 2) (totalN stream)] = _
      rw [(hidx 1).2, (hidx 2).2]
      rfl
  · intro b rest h1 h3
    have hlen : ((channelMeans b).map (fun x => x * (b.n : ℝ))).length = b.c := by
      simp [channelMeans]
    have hnone : addBroadcast [(0 : ℝ), 0, 0]
        ((channelMeans b).map (fun x => x * (b.n : ℝ))) = none :=
      addBroadcast_none (by simp [hlen, h3]) (by simp [hlen, h1])
    simp [get_dataset_info, statsFold, statsStep, initStats, hnone]

/-- Witness for C10 (amended) on a concrete single-channel stream. -/
theorem claim_C10_witness :
    ∃ info, get_dataset_info [⟨1, 1, 2, 2, fun _ _ _ _ => 0⟩] = some info ∧
      info.means.length = 3 ∧ info.std_devs.length = 3 :=
  claim_C10.1 [⟨1, 1, 2, 2, fun _ _ _ _ => 0⟩]
    (by
      intro x hx
      simp only [List.mem_singleton] at hx
      subst hx
      exact Or.inl rfl)

/-! ## Claim C8 -/

/-- C8: whenever `load_dataset` succeeds, the train loader is shuffled and
the test loader is not, and both loaders carry exactly the caller's batch
size and worker count (stated as an unconditional equation on the projected
fields of the result, which also holds trivially on the error paths). -/
theorem claim_C8 (ratioFn : PyStr → PyStr → ℚ) (registry : List PyStr)
    (stream : List Batch) (name root : PyStr) (batch_size num_workers : ℕ) :
    (load_dataset ratioFn registry stream name root batch_size num_workers).map
        (fun p => (p.1.shuffle, p.1.batch_size, p.1.num_workers,
                   p.2.shuffle, p.2.batch_size, p.2.num_workers)) =
      (load_dataset ratioFn registry stream name root batch_size num_workers).map
        (fun _ => (true, batch_size, num_workers,
                   false, batch_size, num_workers)) := by
  unfold load_dataset
  cases get_dataset ratioFn registry name with
  | err sugg => rfl
  | ok data_module =>
      cases get_dataset_info stream with
      | none => rfl
      | some info => rfl

/-- Evaluation of C8 on a concrete successful call: the two loaders with
their flags, batch size 64 and 2 workers. -/
theorem claim_C8_witness :
    (load_dataset (fun _ _ => 0) [['a']] [] ['a'] ['r'] 64 2).map
        (fun p => (p.1.shuffle, p.1.batch_size, p.1.num_workers,
                   p.2.shuffle, p.2.batch_size, p.2.num_workers)) =
      (load_dataset (fun _ _ => 0) [['a']] [] ['a'] ['r'] 64 2).map
        (fun _ => (true, 64, 2, false, 64, 2)) :=
  claim_C8 (fun _ _ => 0) [['a']] [] ['a'] ['r'] 64 2
